import Mathlib

/-!
Shallow embedding of the scoring-and-selection engine of the repository
(src/src/llm/sampler.rs, src/src/rag/embeddings.rs, src/src/rag/vector_db.rs).

Modelling conventions:
* `f32`/`f64` scores are modelled as exact ordered-field values: the selection
  primitives (`top_k_filtering`, `top_p_filtering`, `argmax`,
  `multinomial_sample`, `apply_repetition_penalty`) are stated over an
  arbitrary `LinearOrderedField` so they can be evaluated at `ℚ`, while
  `softmax`, `Sampler.sample`, `cosine_similarity` and `VectorDatabase.search`
  live at `ℝ` (the source uses `exp` and `sqrt`).
* `anyhow::Result` values are `RustResult`: `ok`, `err` (a `bail!`-style typed
  error returned to the caller), or `panicked` (an `assert!`-style abort).
* The impure random draw (`js_sys::Math::random()` / `rand::thread_rng()`)
  is passed as an explicit argument `r`; the browser (`wasm32`) build of
  `multinomial_sample` is the one modelled.
* Rust's stable `sort_by` with comparator `b.key.partial_cmp(&a.key)` is
  modelled as `List.insertionSort` with the relation `key y ≤ key x`:
  a stable sort's output is uniquely determined by the comparator, and
  insertion sort with that relation is stable and descending by `key`.
* The `&mut self` state of `Sampler` is passed explicitly: `Sampler.sample`
  returns the pair (result, post-call state).
-/

/-- Outcome of a Rust call: a value, a typed recoverable error
(`anyhow::bail!` / `Err`), or a process-aborting panic (`assert!`). -/
inductive RustResult (α : Type) where
  | ok : α → RustResult α
  | err : String → RustResult α
  | panicked : String → RustResult α
deriving DecidableEq, Repr

/-- Whether the call returned a value. -/
def RustResult.isOk {α : Type} : RustResult α → Bool
  | .ok _ => true
  | _ => false

/-- Whether the call returned a typed (recoverable) error to the caller. -/
def RustResult.isErr {α : Type} : RustResult α → Bool
  | .err _ => true
  | _ => false

/-- Rust's `.iter().enumerate()` starting at index `i`. -/
def enumerate {α : Type} : ℕ → List α → List (ℕ × α)
  | _, [] => []
  | i, x :: xs => (i, x) :: enumerate (i + 1) xs

/-- Stable descending sort by a key, as performed by
`sort_by(|a, b| b.key.partial_cmp(&a.key).unwrap())` in the source: Rust's
`sort_by` is stable, and the output of a stable sort is uniquely determined
by the comparator, so insertion sort with `key y ≤ key x` is extensionally
the same function. -/
def sortByDesc {α β : Type} [LinearOrder α] (key : β → α) (l : List β) : List β :=
  l.insertionSort (fun x y => key y ≤ key x)

/-- The scatter loop `for (idx, prob) in retained { filtered[idx] = prob }`. -/
def scatterPairs {α : Type} (pairs : List (ℕ × α)) (base : List α) : List α :=
  pairs.foldl (fun acc ip => acc.set ip.1 ip.2) base

/-- `GenerationConfig` from `src/src/llm/mod.rs`. -/
structure GenerationConfig where
  max_tokens : ℕ
  temperature : ℝ
  top_p : ℝ
  top_k : ℕ
  repetition_penalty : ℝ

/-- The `&mut self` state of `Sampler` (`src/src/llm/sampler.rs`): the
emitted-token sequence, and the `HashMap<u32, usize>` of emission counts
modelled as its lookup function (absent key = 0, matching
`entry(id).or_insert(0)`). -/
structure SamplerState where
  generated_tokens : List ℕ
  token_counts : ℕ → ℕ

/-- `Sampler::new()`: empty history. -/
def Sampler.new : SamplerState :=
  { generated_tokens := [], token_counts := fun _ => 0 }

/-- `Sampler::reset()`: clears both history components. -/
def Sampler.reset (_s : SamplerState) : SamplerState :=
  { generated_tokens := [], token_counts := fun _ => 0 }

/-- `Sampler::apply_repetition_penalty`. The source iterates over the
`token_counts` map entries, adjusting `logits[idx]` for each key `idx` that is
in bounds; each key touches a distinct index, so the iteration is modelled
pointwise over the logits, guarded by key membership (`0 < count`). -/
def apply_repetition_penalty {α : Type} [LinearOrderedField α]
    (s : SamplerState) (logits : List α) (penalty : α) : List α :=
  if penalty = 1 then logits
  else
    (enumerate 0 logits).map (fun ip =>
      if 0 < s.token_counts ip.1 then
        let total_penalty := penalty ^ s.token_counts ip.1
        if ip.2 > 0 then ip.2 / total_penalty else ip.2 * total_penalty
      else ip.2)

/-- The fold `iter().fold(NEG_INFINITY, f32::max)` of the source: `-∞` is the
identity of `max`, so on the nonempty lists `softmax` is actually applied to
this equals the list maximum; the seed (`headI`, defaulting to `0` on `[]`)
only matters for `[]`, where the subsequent `map` is empty either way. -/
def listMax (l : List ℝ) : ℝ :=
  l.foldr max l.headI

/-- `softmax` from `src/src/llm/sampler.rs`. -/
noncomputable def softmax (logits : List ℝ) : List ℝ :=
  let max_logit := listMax logits
  let exp_logits := logits.map (fun x => Real.exp (x - max_logit))
  let sum := exp_logits.sum
  exp_logits.map (fun x => x / sum)

/-- `top_k_filtering` from `src/src/llm/sampler.rs`. -/
def top_k_filtering {α : Type} [LinearOrderedField α] (probs : List α) (k : ℕ) : List α :=
  let indexed_probs := sortByDesc Prod.snd (enumerate 0 probs)
  let retained := indexed_probs.take k
  let filtered := scatterPairs retained (List.replicate probs.length 0)
  let sum := (retained.map Prod.snd).sum
  if sum > 0 then filtered.map (fun p => p / sum) else filtered

/-- The cutoff search of `top_p_filtering`: starting from cumulative `c` and
position `i`, the first position (plus one) where the cumulative sum reaches
`p`; `none` when it never does. -/
def cutoffFind {α : Type} [LinearOrderedField α] (p : α) :
    List (ℕ × α) → α → ℕ → Option ℕ
  | [], _, _ => none
  | q :: rest, c, i => if c + q.2 ≥ p then some (i + 1) else cutoffFind p rest (c + q.2) (i + 1)

/-- `top_p_filtering` from `src/src/llm/sampler.rs`. -/
def top_p_filtering {α : Type} [LinearOrderedField α] (probs : List α) (p : α) : List α :=
  let indexed_probs := sortByDesc Prod.snd (enumerate 0 probs)
  let cutoff_idx := (cutoffFind p indexed_probs 0 0).getD indexed_probs.length
  let retained := indexed_probs.take cutoff_idx
  let filtered := scatterPairs retained (List.replicate probs.length 0)
  let sum := (retained.map Prod.snd).sum
  if sum > 0 then filtered.map (fun q => q / sum) else filtered

/-- The fold of Rust's `Iterator::max_by`: the accumulator is kept only when
it compares strictly greater, so among equal maxima the LAST one wins. -/
def argmaxFold {α : Type} [LinearOrderedField α] (best : ℕ × α) :
    List (ℕ × α) → ℕ × α
  | [] => best
  | x :: xs => argmaxFold (if best.2 > x.2 then best else x) xs

/-- `argmax` from `src/src/llm/sampler.rs`:
`enumerate().max_by(...).map(|(idx, _)| idx).unwrap_or(0)`. -/
def argmax {α : Type} [LinearOrderedField α] (probs : List α) : ℕ :=
  match enumerate 0 probs with
  | [] => 0
  | p :: rest => (argmaxFold p rest).1

/-- The CDF loop of `multinomial_sample`: first index where the running
cumulative sum (seeded with `c`) reaches the draw `r`. -/
def cdfFind {α : Type} [LinearOrderedField α] (r : α) :
    List α → α → ℕ → Option ℕ
  | [], _, _ => none
  | p :: rest, c, i => if r ≤ c + p then some i else cdfFind r rest (c + p) (i + 1)

/-- The `enumerate().rev()` fallback loop of `multinomial_sample`
(wasm32 build): last index with positive probability. -/
def lastNonzero {α : Type} [LinearOrderedField α] (probs : List α) : Option ℕ :=
  ((enumerate 0 probs).reverse.find? (fun ip => decide (0 < ip.2))).map Prod.fst

/-- `multinomial_sample` from `src/src/llm/sampler.rs` (wasm32 build), with
the `js_sys::Math::random()` draw passed explicitly as `r`. -/
def multinomial_sample {α : Type} [LinearOrderedField α] (probs : List α) (r : α) :
    RustResult ℕ :=
  match cdfFind r probs 0 0 with
  | some idx => .ok idx
  | none =>
    match lastNonzero probs with
    | some idx => .ok idx
    | none => .ok (argmax probs)

/-- Steps 1-2 of `Sampler::sample`: repetition penalty, then temperature
scaling (skipped unless `temperature > 0`). -/
noncomputable def adjustedLogits (s : SamplerState) (logits : List ℝ)
    (config : GenerationConfig) : List ℝ :=
  let adjusted := apply_repetition_penalty s logits config.repetition_penalty
  if config.temperature > 0 then adjusted.map (fun x => x / config.temperature)
  else adjusted

/-- Steps 3-5 of `Sampler::sample`: softmax, then conditional top-k and
top-p filtering. -/
noncomputable def samplePipeline (s : SamplerState) (logits : List ℝ)
    (config : GenerationConfig) : List ℝ :=
  let probs := softmax (adjustedLogits s logits config)
  let probs :=
    if config.top_k > 0 ∧ config.top_k < probs.length then top_k_filtering probs config.top_k
    else probs
  if config.top_p < 1 then top_p_filtering probs config.top_p else probs

/-- Step 6 of `Sampler::sample`: greedy argmax at `temperature == 0.0`,
multinomial sampling (with `?` error propagation) otherwise. -/
noncomputable def sampleSelect (config : GenerationConfig) (probs : List ℝ)
    (r : ℝ) : RustResult ℕ :=
  if config.temperature = 0 then RustResult.ok (argmax probs)
  else multinomial_sample probs r

/-- Step 7 of `Sampler::sample`: `generated_tokens.push(token_id)` and
`*token_counts.entry(token_id).or_insert(0) += 1`. -/
def recordToken (s : SamplerState) (token_id : ℕ) : SamplerState :=
  { generated_tokens := s.generated_tokens ++ [token_id],
    token_counts := fun t => if t = token_id then s.token_counts t + 1
                             else s.token_counts t }

/-- `Sampler::sample` from `src/src/llm/sampler.rs`, with the `&mut self`
state passed in and the post-call state returned alongside the result. -/
noncomputable def Sampler.sample (s : SamplerState) (logits : List ℝ)
    (config : GenerationConfig) (r : ℝ) : RustResult ℕ × SamplerState :=
  if logits.isEmpty then (.err "Logits cannot be empty", s)
  else
    match sampleSelect config (samplePipeline s logits config) r with
    | .ok token_id => (.ok token_id, recordToken s token_id)
    | .err e => (.err e, s)
    | .panicked m => (.panicked m, s)

/-- `ChunkMetadata` from `src/src/rag/mod.rs`. -/
structure ChunkMetadata where
  document_id : String
  document_name : String
  chunk_index : ℕ
  start_char : ℕ
  end_char : ℕ
  created_at : String

/-- `Chunk` from `src/src/rag/mod.rs`, its embedding an optional real vector. -/
structure Chunk where
  id : String
  content : String
  embedding : Option (List ℝ)
  metadata : ChunkMetadata

/-- `SearchResult` from `src/src/rag/mod.rs`. -/
structure SearchResult where
  chunk : Chunk
  score : ℝ

/-- The `sqrt` of the sum of squares, as computed inside `cosine_similarity`. -/
noncomputable def magnitude (v : List ℝ) : ℝ :=
  Real.sqrt ((v.map (fun x => x * x)).sum)

/-- `cosine_similarity` from `src/src/rag/embeddings.rs`. The
`assert_eq!(a.len(), b.len(), "Vectors must have same dimension")` guard is a
panic (process abort), not a returned error, hence `panicked`. -/
noncomputable def cosine_similarity (a b : List ℝ) : RustResult ℝ :=
  if a.length ≠ b.length then .panicked "Vectors must have same dimension"
  else
    let dot_product := ((a.zip b).map (fun xy => xy.1 * xy.2)).sum
    let magnitude_a := magnitude a
    let magnitude_b := magnitude b
    if magnitude_a = 0 ∨ magnitude_b = 0 then .ok 0
    else .ok (dot_product / (magnitude_a * magnitude_b))

/-- `VectorDatabase` from `src/src/rag/vector_db.rs`: the insertion-ordered
chunk list. -/
structure VectorDatabase where
  chunks : List Chunk

/-- The `filter_map` of `VectorDatabase::search`: score every chunk that has
an embedding (chunks without one are skipped), propagating the panic that
`cosine_similarity` raises on a dimension mismatch. -/
noncomputable def scoreChunks (query_embedding : List ℝ) :
    List Chunk → RustResult (List SearchResult)
  | [] => .ok []
  | c :: cs =>
    match c.embedding with
    | none => scoreChunks query_embedding cs
    | some emb =>
      match cosine_similarity query_embedding emb with
      | .ok score =>
        match scoreChunks query_embedding cs with
        | .ok rest => .ok ({ chunk := c, score := score } :: rest)
        | .err e => .err e
        | .panicked m => .panicked m
      | .err e => .err e
      | .panicked m => .panicked m

/-- `VectorDatabase::search` from `src/src/rag/vector_db.rs`: score the
embedded chunks, stable-sort descending by score, truncate to `top_k`. -/
noncomputable def VectorDatabase.search (db : VectorDatabase)
    (query_embedding : List ℝ) (top_k : ℕ) : RustResult (List SearchResult) :=
  match scoreChunks query_embedding db.chunks with
  | .ok results => .ok ((sortByDesc SearchResult.score results).take top_k)
  | .err e => .err e
  | .panicked m => .panicked m

/-- The `SamplerState` invariant: the count map assigns to each identifier
exactly its number of occurrences in the emitted sequence. -/
def SamplerInv (s : SamplerState) : Prop :=
  ∀ t, s.token_counts t = s.generated_tokens.count t

theorem enumerate_length {α : Type} (l : List α) : ∀ i, (enumerate i l).length = l.length := by
  induction l with
  | nil => intro i; rfl
  | cons x xs ih => intro i; simp [enumerate, ih]

theorem enumerate_map_snd {α : Type} (l : List α) : ∀ i, (enumerate i l).map Prod.snd = l := by
  induction l with
  | nil => intro i; rfl
  | cons x xs ih => intro i; simp [enumerate, ih]

theorem enumerate_map_fst {α : Type} (l : List α) :
    ∀ i, (enumerate i l).map Prod.fst = List.range' i l.length := by
  induction l with
  | nil => intro i; rfl
  | cons x xs ih => intro i; simp [enumerate, List.range', ih]

theorem mem_enumerate {α : Type} {l : List α} {p : ℕ × α} :
    ∀ {i : ℕ}, p ∈ enumerate i l → i ≤ p.1 ∧ p.1 < i + l.length ∧ l.get? (p.1 - i) = some p.2 := by
  induction l with
  | nil => intro i h; simp [enumerate] at h
  | cons x xs ih =>
    intro i h
    simp only [enumerate, List.mem_cons] at h
    rcases h with h | h
    · subst h
      simp
    · obtain ⟨h1, h2, h3⟩ := ih h
      refine ⟨by omega, by simp; omega, ?_⟩
      have hp : p.1 - i = (p.1 - (i + 1)) + 1 := by omega
      rw [hp]
      simpa using h3

theorem enumerate_nodup_fst {α : Type} (l : List α) (i : ℕ) :
    ((enumerate i l).map Prod.fst).Nodup := by
  rw [enumerate_map_fst]
  exact List.nodup_range' _ _

theorem sortByDesc_perm {α β : Type} [LinearOrder α] (key : β → α) (l : List β) :
    List.Perm (sortByDesc key l) l :=
  List.perm_insertionSort _ l

theorem sortByDesc_length {α β : Type} [LinearOrder α] (key : β → α) (l : List β) :
    (sortByDesc key l).length = l.length :=
  (sortByDesc_perm key l).length_eq

theorem sortByDesc_sorted {α β : Type} [LinearOrder α] (key : β → α) (l : List β) :
    (sortByDesc key l).Sorted (fun x y => key y ≤ key x) := by
  haveI : IsTotal β (fun x y => key y ≤ key x) := ⟨fun a b => (le_total (key b) (key a))⟩
  haveI : IsTrans β (fun x y => key y ≤ key x) :=
    ⟨fun _ _ _ hab hbc => le_trans hbc hab⟩
  exact List.sorted_insertionSort _ l

/-- Stability: the subsequence of elements whose key equals any fixed value is
untouched by the sort. -/
theorem sortByDesc_stable {α β : Type} [LinearOrder α] (key : β → α) (l : List β) (s : α) :
    (sortByDesc key l).filter (fun x => key x = s) = l.filter (fun x => key x = s) := by
  have hpw : (l.filter (fun x => key x = s)).Pairwise (fun x y => key y ≤ key x) := by
    have : ∀ x ∈ l.filter (fun x => key x = s), key x = s := by
      intro x hx
      simpa using (List.of_mem_filter hx)
    refine List.Pairwise.imp_of_mem ?_ (List.pairwise_of_forall_mem_list (fun _ _ _ _ => True.intro))
    intro a b ha hb _
    rw [this a ha, this b hb]
  have hsub : (l.filter (fun x => key x = s)).Sublist (sortByDesc key l) := by
    haveI : IsTotal β (fun x y => key y ≤ key x) := ⟨fun a b => (le_total (key b) (key a))⟩
    haveI : IsTrans β (fun x y => key y ≤ key x) :=
      ⟨fun _ _ _ hab hbc => le_trans hbc hab⟩
    exact List.sublist_insertionSort hpw (List.filter_sublist l)
  have hsub2 : (l.filter (fun x => key x = s)).Sublist ((sortByDesc key l).filter (fun x => key x = s)) := by
    have h1 := hsub.filter (fun x => decide (key x = s))
    have h0 : (List.filter (fun x => decide (key x = s)) (List.filter (fun x => decide (key x = s)) l))
        = List.filter (fun x => decide (key x = s)) l := by
      simp [List.filter_filter]
    rwa [h0] at h1
  have hlen : ((sortByDesc key l).filter (fun x => key x = s)).length
      = (l.filter (fun x => key x = s)).length := by
    exact ((sortByDesc_perm key l).filter _).length_eq
  exact (hsub2.eq_of_length hlen.symm).symm

theorem multinomial_sample_exists_ok {α : Type} [LinearOrderedField α]
    (probs : List α) (r : α) : ∃ i, multinomial_sample probs r = .ok i := by
  unfold multinomial_sample
  rcases hc : cdfFind r probs 0 0 with _ | i
  · rcases hl : lastNonzero probs with _ | j
    · exact ⟨argmax probs, rfl⟩
    · exact ⟨j, rfl⟩
  · exact ⟨i, rfl⟩

theorem sampleSelect_exists_ok (config : GenerationConfig) (probs : List ℝ) (r : ℝ) :
    ∃ i, sampleSelect config probs r = .ok i := by
  by_cases ht : config.temperature = 0
  · exact ⟨argmax probs, by simp [sampleSelect, ht]⟩
  · obtain ⟨i, hi⟩ := multinomial_sample_exists_ok probs r
    exact ⟨i, by simp [sampleSelect, ht, hi]⟩

/-- Every call of `Sampler::sample` either fails on the empty-input check with
the state untouched, or succeeds and records exactly the returned token. -/
theorem sample_shape (s : SamplerState) (logits : List ℝ)
    (config : GenerationConfig) (r : ℝ) :
    (logits = [] ∧ Sampler.sample s logits config r = (.err "Logits cannot be empty", s)) ∨
    (∃ tok, sampleSelect config (samplePipeline s logits config) r = .ok tok ∧
      Sampler.sample s logits config r = (.ok tok, recordToken s tok)) := by
  by_cases he : logits.isEmpty
  · exact Or.inl ⟨List.isEmpty_iff.mp he, by simp [Sampler.sample, he]⟩
  · right
    obtain ⟨tok, htok⟩ := sampleSelect_exists_ok config (samplePipeline s logits config) r
    exact ⟨tok, htok, by simp [Sampler.sample, he, htok]⟩

/-- C7: applying the repetition-penalty stage with `penalty = 1.0` leaves the
score vector unchanged, for every history. -/
theorem repetition_penalty_one_identity {α : Type} [LinearOrderedField α]
    (s : SamplerState) (logits : List α) :
    apply_repetition_penalty s logits 1 = logits := by
  simp [apply_repetition_penalty]

/-- C6: `sample` fails with the empty-input error on a zero-length score
vector, leaving the history state exactly as it was; whenever a call does not
return a selection, the state is unchanged (history is only updated after a
successful selection). -/
theorem sample_empty_input_spec :
    (∀ (s : SamplerState) (config : GenerationConfig) (r : ℝ),
        Sampler.sample s [] config r = (.err "Logits cannot be empty", s)) ∧
    (∀ (s : SamplerState) (logits : List ℝ) (config : GenerationConfig) (r : ℝ),
        (Sampler.sample s logits config r).1.isOk = false →
          (Sampler.sample s logits config r).2 = s) := by
  constructor
  · intro s config r
    simp [Sampler.sample]
  · intro s logits config r h
    rcases sample_shape s logits config r with ⟨_, heq⟩ | ⟨tok, _, heq⟩
    · rw [heq]
    · rw [heq] at h
      simp [RustResult.isOk] at h

/-- Witness for C6 at a concrete state and configuration (the repository's
default `GenerationConfig`). -/
theorem sample_empty_input_witness :
    (Sampler.sample { generated_tokens := [3], token_counts := fun t => if t = 3 then 1 else 0 }
        [] (GenerationConfig.mk 512 (7/10) (9/10) 40 (11/10)) (1/2)).2
      = { generated_tokens := [3], token_counts := fun t => if t = 3 then 1 else 0 } :=
  sample_empty_input_spec.2
    { generated_tokens := [3], token_counts := fun t => if t = 3 then 1 else 0 }
    [] (GenerationConfig.mk 512 (7/10) (9/10) 40 (11/10)) (1/2)
    (by simp [Sampler.sample, RustResult.isOk])

theorem scatterPairs_length {α : Type} :
    ∀ (pairs : List (ℕ × α)) (base : List α),
      (scatterPairs pairs base).length = base.length := by
  intro pairs
  induction pairs with
  | nil => intro base; rfl
  | cons p ps ih =>
    intro base
    simpa [scatterPairs] using (ih (base.set p.1 p.2)).trans (by simp)

theorem mem_scatterPairs {α : Type} {x : α} :
    ∀ {pairs : List (ℕ × α)} {base : List α},
      x ∈ scatterPairs pairs base → x ∈ base ∨ ∃ p ∈ pairs, x = p.2 := by
  intro pairs
  induction pairs with
  | nil => intro base h; exact Or.inl h
  | cons p ps ih =>
    intro base h
    rcases ih h with h1 | ⟨q, hq, hxq⟩
    · rcases List.mem_or_eq_of_mem_set h1 with h2 | h2
      · exact Or.inl h2
      · exact Or.inr ⟨p, List.mem_cons_self p ps, h2⟩
    · exact Or.inr ⟨q, List.mem_cons_of_mem p hq, hxq⟩

/-- C9: the sampler state invariant holds after every operation: `new` and
`reset` give a consistent empty history, and a `sample` call preserves the
count-map/sequence consistency while extending the sequence append-only,
by exactly the returned token on success and not at all otherwise. -/
theorem sampler_history_invariant :
    SamplerInv Sampler.new ∧
    (∀ s : SamplerState, SamplerInv (Sampler.reset s)) ∧
    (∀ (s : SamplerState) (logits : List ℝ) (config : GenerationConfig) (r : ℝ),
      SamplerInv s →
        SamplerInv (Sampler.sample s logits config r).2 ∧
        ((Sampler.sample s logits config r).2.generated_tokens = s.generated_tokens ∨
          ∃ tok, (Sampler.sample s logits config r).1 = .ok tok ∧
            (Sampler.sample s logits config r).2.generated_tokens
              = s.generated_tokens ++ [tok])) := by
  refine ⟨by intro t; simp [Sampler.new, SamplerInv], ?_, ?_⟩
  · intro s t
    simp [Sampler.reset]
  · intro s logits config r hinv
    rcases sample_shape s logits config r with ⟨_, heq⟩ | ⟨tok, _, heq⟩
    · rw [heq]
      exact ⟨hinv, Or.inl rfl⟩
    · rw [heq]
      refine ⟨?_, Or.inr ⟨tok, rfl, rfl⟩⟩
      intro t
      simp only [recordToken]
      rw [hinv t]
      by_cases h : t = tok
      · subst h
        simp [List.count_append]
      · simp [h, List.count_append, List.count_singleton']

/-- Witness for C9: the invariant after a concrete successful `sample` call
from the freshly constructed sampler. -/
theorem sampler_history_invariant_witness :
    SamplerInv ((Sampler.sample Sampler.new [(1:ℝ)]
        (GenerationConfig.mk 512 (7/10) (9/10) 40 (11/10)) (1/2)).2) :=
  ((sampler_history_invariant.2.2 Sampler.new [(1:ℝ)]
      (GenerationConfig.mk 512 (7/10) (9/10) 40 (11/10)) (1/2))
    (by intro t; simp [SamplerInv, Sampler.new])).1

theorem top_k_replicate_zero {α : Type} [LinearOrderedField α] (n k : ℕ) :
    top_k_filtering (List.replicate n (0:α)) k = List.replicate n 0 := by
  have hmem0 : ∀ p ∈ (sortByDesc Prod.snd (enumerate 0 (List.replicate n (0:α)))).take k,
      p.2 = (0:α) := by
    intro p hp
    have hp1 : p ∈ sortByDesc Prod.snd (enumerate 0 (List.replicate n (0:α))) :=
      List.mem_of_mem_take hp
    have hp2 : p ∈ enumerate 0 (List.replicate n (0:α)) :=
      (sortByDesc_perm _ _).mem_iff.mp hp1
    have hp3 : p.2 ∈ List.replicate n (0:α) := by
      have := List.mem_map_of_mem Prod.snd hp2
      rwa [enumerate_map_snd] at this
    exact List.eq_of_mem_replicate hp3
  have hsum : (((sortByDesc Prod.snd (enumerate 0 (List.replicate n (0:α)))).take k).map
      Prod.snd).sum = 0 := by
    apply List.sum_eq_zero
    intro x hx
    obtain ⟨p, hp, rfl⟩ := List.mem_map.mp hx
    exact hmem0 p hp
  simp only [top_k_filtering, hsum, lt_irrefl, gt_iff_lt, if_false]
  have hlen : (scatterPairs ((sortByDesc Prod.snd (enumerate 0 (List.replicate n (0:α)))).take k)
      (List.replicate (List.replicate n (0:α)).length 0)).length = n := by
    rw [scatterPairs_length]
    simp
  rw [List.eq_replicate_iff]
  refine ⟨hlen, ?_⟩
  intro b hb
  rcases mem_scatterPairs hb with h1 | ⟨p, hp, rfl⟩
  · exact List.eq_of_mem_replicate h1
  · exact hmem0 p hp

/-- C1 (amended): when a filtering stage zeroes all probability mass, the
all-zero vector is NOT surfaced as an error. Top-k filtering skips
renormalization and returns the all-zero vector unchanged,
`multinomial_sample` still returns a selection (`Ok`) through its fallbacks,
and the only typed error `Sampler::sample` ever reports is the empty-input
one: no `DegenerateDistribution` error exists in the code. -/
theorem degenerate_distribution_spec :
    (∀ n k : ℕ, top_k_filtering (List.replicate n (0:ℚ)) k = List.replicate n 0) ∧
    (∀ (probs : List ℚ) (r : ℚ), (multinomial_sample probs r).isOk = true) ∧
    (∀ (s : SamplerState) (logits : List ℝ) (config : GenerationConfig) (r : ℝ) (e : String),
        (Sampler.sample s logits config r).1 = .err e → e = "Logits cannot be empty") := by
  refine ⟨top_k_replicate_zero, ?_, ?_⟩
  · intro probs r
    obtain ⟨i, hi⟩ := multinomial_sample_exists_ok probs r
    simp [hi, RustResult.isOk]
  · intro s logits config r e h
    rcases sample_shape s logits config r with ⟨_, heq⟩ | ⟨tok, _, heq⟩
    · rw [heq] at h
      simpa using h.symm
    · rw [heq] at h
      simp at h

/-- Witness for C1: the empty-input call carries exactly the empty-input
error message. -/
theorem degenerate_distribution_witness :
    (Sampler.sample Sampler.new [] (GenerationConfig.mk 512 (7/10) (9/10) 40 (11/10)) (1/2)).1
        = RustResult.err "Logits cannot be empty" ∧
    "Logits cannot be empty" = "Logits cannot be empty" :=
  ⟨by simp [Sampler.sample],
   degenerate_distribution_spec.2.2 Sampler.new []
     (GenerationConfig.mk 512 (7/10) (9/10) 40 (11/10)) (1/2) "Logits cannot be empty"
     (by simp [Sampler.sample])⟩

/-- C1 counterexample: on the all-zero three-entry distribution, top-k
filtering (k = 2) leaves the vector all-zero, yet sampling from it does not
surface any error: `multinomial_sample` returns the selection `Ok 2` (the
`argmax` fallback, which is the last index). -/
theorem degenerate_distribution_counterexample :
    top_k_filtering ([0, 0, 0] : List ℚ) 2 = [0, 0, 0] ∧
    multinomial_sample ([0, 0, 0] : List ℚ) (1/2) = .ok 2 ∧
    (multinomial_sample ([0, 0, 0] : List ℚ) (1/2)).isErr = false := by
  refine ⟨?_, ?_, ?_⟩
  · norm_num [top_k_filtering, sortByDesc, enumerate, scatterPairs, List.insertionSort,
      List.orderedInsert, List.replicate, List.set]
  · norm_num [multinomial_sample, cdfFind, lastNonzero, enumerate, argmax, argmaxFold,
      List.find?]
  · norm_num [multinomial_sample, cdfFind, lastNonzero, enumerate, argmax, argmaxFold,
      List.find?, RustResult.isErr]

/-- C4 counterexample: calling `cosine_similarity` with mismatched lengths
does not return a typed error value to the caller — the `assert_eq!` guard
panics (aborts) instead. -/
theorem dimension_mismatch_counterexample :
    (cosine_similarity [(1:ℝ)] []).isErr = false ∧
    cosine_similarity [(1:ℝ)] [] = .panicked "Vectors must have same dimension" := by
  constructor <;> simp [cosine_similarity, RustResult.isErr]

/-- C4 (amended): calling `similarity(a, b)` with `len(a) != len(b)` always
aborts with the `assert_eq!` panic "Vectors must have same dimension"; the
failure is a panic, not a typed `DimensionMismatch` error value returned to
the immediate caller. -/
theorem dimension_mismatch_panics (a b : List ℝ) (h : a.length ≠ b.length) :
    cosine_similarity a b = .panicked "Vectors must have same dimension" := by
  simp [cosine_similarity, h]

/-- Witness for C4 (amended) at a concrete mismatched pair. -/
theorem dimension_mismatch_panics_witness :
    cosine_similarity [(1:ℝ)] [] = .panicked "Vectors must have same dimension" :=
  dimension_mismatch_panics [(1:ℝ)] [] (by simp)

/-- C8: `similarity(a, b)` returns exactly 0 whenever either input vector has
zero magnitude, for every pair of equal-length vectors — a returned value,
not a fault and not an error. -/
theorem cosine_similarity_zero_magnitude (a b : List ℝ)
    (hlen : a.length = b.length) (h : magnitude a = 0 ∨ magnitude b = 0) :
    cosine_similarity a b = .ok 0 := by
  simp only [cosine_similarity]
  rw [if_neg (by simp [hlen]), if_pos h]

/-- Witness for C8: the zero vector against `[1, 2]`. -/
theorem cosine_similarity_zero_magnitude_witness :
    [(0:ℝ), 0].length = [(1:ℝ), 2].length ∧
    cosine_similarity [(0:ℝ), 0] [(1:ℝ), 2] = .ok 0 :=
  ⟨rfl, cosine_similarity_zero_magnitude [(0:ℝ), 0] [(1:ℝ), 2] rfl
    (Or.inl (by simp [magnitude]))⟩

theorem argmaxFold_mem {α : Type} [LinearOrderedField α] :
    ∀ (l : List (ℕ × α)) (best : ℕ × α), argmaxFold best l ∈ best :: l := by
  intro l
  induction l with
  | nil =>
    intro best
    simp [argmaxFold]
  | cons x xs ih =>
    intro best
    simp only [argmaxFold]
    have h := ih (if best.2 > x.2 then best else x)
    rcases List.mem_cons.mp h with h1 | h1
    · rw [h1]
      by_cases hb : best.2 > x.2
      · simp [hb]
      · simp [hb]
    · exact List.mem_cons_of_mem _ (List.mem_cons_of_mem _ h1)

theorem argmax_lt_length {α : Type} [LinearOrderedField α] {probs : List α}
    (h : probs ≠ []) : argmax probs < probs.length := by
  cases probs with
  | nil => exact absurd rfl h
  | cons a as =>
    simp only [argmax, enumerate]
    have hm := argmaxFold_mem (enumerate (0 + 1) as) (0, a)
    rcases List.mem_cons.mp hm with h1 | h1
    · rw [h1]
      simp
    · have h2 := (mem_enumerate h1).2.1
      simp only [List.length_cons]
      omega

theorem cdfFind_lt {α : Type} [LinearOrderedField α] (r : α) :
    ∀ (l : List α) (c : α) (i j : ℕ), cdfFind r l c i = some j → j < i + l.length := by
  intro l
  induction l with
  | nil =>
    intro c i j h
    simp [cdfFind] at h
  | cons p rest ih =>
    intro c i j h
    simp only [cdfFind] at h
    by_cases hc : r ≤ c + p
    · rw [if_pos hc] at h
      have : i = j := by simpa using h
      simp only [List.length_cons]
      omega
    · rw [if_neg hc] at h
      have := ih (c + p) (i + 1) j h
      simp only [List.length_cons]
      omega

theorem lastNonzero_lt {α : Type} [LinearOrderedField α] {probs : List α} {j : ℕ}
    (h : lastNonzero probs = some j) : j < probs.length := by
  simp only [lastNonzero, Option.map_eq_some'] at h
  obtain ⟨p, hp, hj⟩ := h
  have hmem : p ∈ (enumerate 0 probs).reverse := List.mem_of_find?_eq_some hp
  rw [List.mem_reverse] at hmem
  have h2 := (mem_enumerate hmem).2.1
  omega

theorem multinomial_sample_lt {α : Type} [LinearOrderedField α] {probs : List α} {r : α}
    {tok : ℕ} (hne : probs ≠ []) (h : multinomial_sample probs r = .ok tok) :
    tok < probs.length := by
  unfold multinomial_sample at h
  rcases hc : cdfFind r probs 0 0 with _ | i
  · rw [hc] at h
    rcases hl : lastNonzero probs with _ | j
    · rw [hl] at h
      have : argmax probs = tok := by simpa using h
      rw [← this]
      exact argmax_lt_length hne
    · rw [hl] at h
      have : j = tok := by simpa using h
      rw [← this]
      exact lastNonzero_lt hl
  · rw [hc] at h
    have : i = tok := by simpa using h
    rw [← this]
    simpa using cdfFind_lt r probs 0 0 i hc

theorem apply_repetition_penalty_length {α : Type} [LinearOrderedField α]
    (s : SamplerState) (logits : List α) (penalty : α) :
    (apply_repetition_penalty s logits penalty).length = logits.length := by
  unfold apply_repetition_penalty
  split
  · rfl
  · rw [List.length_map, enumerate_length]

theorem softmax_length (l : List ℝ) : (softmax l).length = l.length := by
  simp [softmax]

theorem top_k_filtering_length {α : Type} [LinearOrderedField α] (probs : List α) (k : ℕ) :
    (top_k_filtering probs k).length = probs.length := by
  simp only [top_k_filtering]
  split
  · rw [List.length_map, scatterPairs_length, List.length_replicate]
  · rw [scatterPairs_length, List.length_replicate]

theorem top_p_filtering_length {α : Type} [LinearOrderedField α] (probs : List α) (p : α) :
    (top_p_filtering probs p).length = probs.length := by
  simp only [top_p_filtering]
  split
  · rw [List.length_map, scatterPairs_length, List.length_replicate]
  · rw [scatterPairs_length, List.length_replicate]

theorem adjustedLogits_length (s : SamplerState) (logits : List ℝ)
    (config : GenerationConfig) : (adjustedLogits s logits config).length = logits.length := by
  simp only [adjustedLogits]
  split
  · rw [List.length_map, apply_repetition_penalty_length]
  · rw [apply_repetition_penalty_length]

theorem samplePipeline_length (s : SamplerState) (logits : List ℝ)
    (config : GenerationConfig) : (samplePipeline s logits config).length = logits.length := by
  simp only [samplePipeline]
  split
  · rw [top_p_filtering_length]
    split
    · rw [top_k_filtering_length, softmax_length, adjustedLogits_length]
    · rw [softmax_length, adjustedLogits_length]
  · split
    · rw [top_k_filtering_length, softmax_length, adjustedLogits_length]
    · rw [softmax_length, adjustedLogits_length]

/-- C10: a successful `sample` call returns an identifier that is a valid
index into the input score vector, in both deterministic and stochastic
modes, for every policy configuration. -/
theorem sample_token_in_range (s : SamplerState) (logits : List ℝ)
    (config : GenerationConfig) (r : ℝ) (tok : ℕ) (hne : logits ≠ [])
    (h : (Sampler.sample s logits config r).1 = .ok tok) : tok < logits.length := by
  rcases sample_shape s logits config r with ⟨hnil, _⟩ | ⟨tok', hsel, heq⟩
  · exact absurd hnil hne
  · rw [heq] at h
    have htok : tok' = tok := by simpa using h
    subst htok
    have hpne : samplePipeline s logits config ≠ [] := by
      intro hcontra
      have hl := samplePipeline_length s logits config
      rw [hcontra] at hl
      exact hne (List.length_eq_zero.mp hl.symm)
    unfold sampleSelect at hsel
    by_cases ht : config.temperature = 0
    · rw [if_pos ht] at hsel
      have : argmax (samplePipeline s logits config) = tok' := by simpa using hsel
      rw [← this, ← samplePipeline_length s logits config]
      exact argmax_lt_length hpne
    · rw [if_neg ht] at hsel
      rw [← samplePipeline_length s logits config]
      exact multinomial_sample_lt hpne hsel

theorem enumerate_map {α β : Type} (f : α → β) (l : List α) :
    ∀ i, enumerate i (l.map f) = (enumerate i l).map (fun p => (p.1, f p.2)) := by
  induction l with
  | nil => intro i; rfl
  | cons x xs ih => intro i; simp [enumerate, ih]

theorem argmaxFold_map {α β : Type} [LinearOrderedField α] [LinearOrderedField β]
    {f : α → β} (hf : ∀ a b : α, a < b ↔ f a < f b) :
    ∀ (l : List (ℕ × α)) (best : ℕ × α),
      argmaxFold (best.1, f best.2) (l.map (fun p => (p.1, f p.2)))
        = ((argmaxFold best l).1, f (argmaxFold best l).2) := by
  intro l
  induction l with
  | nil => intro best; simp [argmaxFold]
  | cons x xs ih =>
    intro best
    simp only [List.map_cons, argmaxFold]
    by_cases hb : best.2 > x.2
    · have hb' : f x.2 < f best.2 := (hf _ _).mp hb
      rw [if_pos hb, if_pos hb']
      exact ih best
    · have hb' : ¬ (f x.2 < f best.2) := fun hc => hb ((hf _ _).mpr hc)
      rw [if_neg hb, if_neg hb']
      exact ih x

theorem argmax_map {α β : Type} [LinearOrderedField α] [LinearOrderedField β]
    {f : α → β} (hf : ∀ a b : α, a < b ↔ f a < f b) (l : List α) :
    argmax (l.map f) = argmax l := by
  cases l with
  | nil => simp [argmax, enumerate]
  | cons a as =>
    simp only [argmax, List.map_cons, enumerate, enumerate_map]
    have h := argmaxFold_map hf (enumerate (0 + 1) as) (0, a)
    simpa using congrArg Prod.fst h

theorem softmax_eq_map (l : List ℝ) :
    softmax l = l.map (fun x =>
      Real.exp (x - listMax l) / (l.map (fun y => Real.exp (y - listMax l))).sum) := by
  simp only [softmax]
  rw [List.map_map]
  rfl

theorem softmax_denom_pos {l : List ℝ} (h : l ≠ []) :
    0 < (l.map (fun y => Real.exp (y - listMax l))).sum := by
  apply List.sum_pos
  · intro x hx
    obtain ⟨y, _, rfl⟩ := List.mem_map.mp hx
    exact Real.exp_pos _
  · intro hc
    exact h (List.map_eq_nil_iff.mp hc)

/-- Softmax is entrywise strictly monotone (positive denominator), so it
preserves the code's `argmax` (including its tie-breaking). -/
theorem argmax_softmax {l : List ℝ} (h : l ≠ []) : argmax (softmax l) = argmax l := by
  rw [softmax_eq_map]
  apply argmax_map
  intro a b
  rw [div_lt_div_iff_of_pos_right (softmax_denom_pos h), Real.exp_lt_exp, sub_lt_sub_iff_right]

/-- C2 (amended): in deterministic mode (`temperature = 0`) with top-k
disabled (`top_k = 0`) and top-p disabled (`top_p ≥ 1`), `sample` selects an
index of maximum post-repetition-penalty score, but ties among equal maximum
scores are resolved by the LAST occurrence (Rust's `max_by` keeps the later
of equal elements), and the softmax stage still runs — it merely preserves
the argmax. -/
theorem deterministic_mode_spec (s : SamplerState) (logits : List ℝ)
    (config : GenerationConfig) (r : ℝ) (hne : logits ≠ [])
    (ht : config.temperature = 0) (hk : config.top_k = 0) (hp : 1 ≤ config.top_p) :
    (Sampler.sample s logits config r).1
      = .ok (argmax (apply_repetition_penalty s logits config.repetition_penalty)) := by
  have hadj : adjustedLogits s logits config
      = apply_repetition_penalty s logits config.repetition_penalty := by
    simp only [adjustedLogits]
    rw [if_neg]
    rw [ht]
    exact lt_irrefl 0
  have hpipe : samplePipeline s logits config
      = softmax (apply_repetition_penalty s logits config.repetition_penalty) := by
    simp only [samplePipeline]
    rw [if_neg (not_lt.mpr hp), if_neg (by rw [hk]; simp), hadj]
  have hne' : apply_repetition_penalty s logits config.repetition_penalty ≠ [] := by
    intro hc
    have hl := apply_repetition_penalty_length s logits config.repetition_penalty
    rw [hc] at hl
    exact hne (List.length_eq_zero.mp hl.symm)
  rcases sample_shape s logits config r with ⟨hnil, _⟩ | ⟨tok, hsel, heq⟩
  · exact absurd hnil hne
  · rw [heq]
    unfold sampleSelect at hsel
    rw [if_pos ht] at hsel
    have h1 : argmax (samplePipeline s logits config) = tok := by simpa using hsel
    rw [← h1, hpipe, argmax_softmax hne']

/-- Concrete deterministic run on two tied maximal scores: the selected index
is 1, the last of the tied maxima. -/
theorem sample_two_ones_eval :
    (Sampler.sample Sampler.new [(1:ℝ), 1] (GenerationConfig.mk 512 0 1 0 1) (1/2)).1
      = .ok 1 := by
  have hadj : adjustedLogits Sampler.new [(1:ℝ), 1] (GenerationConfig.mk 512 0 1 0 1)
      = [(1:ℝ), 1] := by
    simp [adjustedLogits, apply_repetition_penalty]
  have hpipe : samplePipeline Sampler.new [(1:ℝ), 1] (GenerationConfig.mk 512 0 1 0 1)
      = softmax [(1:ℝ), 1] := by
    simp only [samplePipeline, hadj]
    norm_num
  have hargmax : argmax (softmax [(1:ℝ), 1]) = 1 := by
    rw [argmax_softmax (by simp)]
    norm_num [argmax, enumerate, argmaxFold]
  rcases sample_shape Sampler.new [(1:ℝ), 1] (GenerationConfig.mk 512 0 1 0 1) (1/2)
    with ⟨hnil, _⟩ | ⟨tok, hsel, heq⟩
  · simp at hnil
  · rw [heq]
    unfold sampleSelect at hsel
    rw [if_pos rfl, hpipe, hargmax] at hsel
    have : tok = 1 := by simpa using hsel.symm
    rw [this]

/-- C2 counterexample: scores `[1, 1]`, temperature 0, filters disabled,
empty history. The claim predicts index 0 (first occurrence of the maximum);
the code returns index 1. -/
theorem deterministic_mode_counterexample :
    (Sampler.sample Sampler.new [(1:ℝ), 1] (GenerationConfig.mk 512 0 1 0 1) (1/2)).1
        = .ok 1 ∧
    (Sampler.sample Sampler.new [(1:ℝ), 1] (GenerationConfig.mk 512 0 1 0 1) (1/2)).1
        ≠ .ok 0 := by
  refine ⟨sample_two_ones_eval, ?_⟩
  rw [sample_two_ones_eval]
  simp

/-- Witness for C2 (amended) at concrete distinct scores. -/
theorem deterministic_mode_witness :
    (Sampler.sample Sampler.new [(2:ℝ), 3] (GenerationConfig.mk 512 0 1 0 1) (1/2)).1
      = .ok (argmax (apply_repetition_penalty Sampler.new [(2:ℝ), 3]
          (GenerationConfig.mk 512 0 1 0 1).repetition_penalty)) :=
  deterministic_mode_spec Sampler.new [(2:ℝ), 3] (GenerationConfig.mk 512 0 1 0 1) (1/2)
    (by simp) rfl rfl (by norm_num)

/-- Witness for C10: a concrete successful call returns a valid index. -/
theorem sample_token_in_range_witness :
    ([(1:ℝ), 1] ≠ [] ∧
      (Sampler.sample Sampler.new [(1:ℝ), 1] (GenerationConfig.mk 512 0 1 0 1) (1/2)).1
        = .ok 1) ∧
    (1:ℕ) < ([(1:ℝ), 1]).length :=
  ⟨⟨by simp, sample_two_ones_eval⟩,
   sample_token_in_range Sampler.new [(1:ℝ), 1] (GenerationConfig.mk 512 0 1 0 1) (1/2) 1
     (by simp) sample_two_ones_eval⟩

theorem scatterPairs_getElem? {α : Type} :
    ∀ (pairs : List (ℕ × α)) (base : List α),
      (pairs.map Prod.fst).Nodup → (∀ p ∈ pairs, p.1 < base.length) →
      ∀ i, (scatterPairs pairs base)[i]? =
        (match pairs.find? (fun p => decide (p.1 = i)) with
         | some q => some q.2
         | none => base[i]?) := by
  intro pairs
  induction pairs with
  | nil =>
    intro base _ _ i
    simp [scatterPairs]
  | cons p ps ih =>
    intro base hnd hbound i
    have hnd' : (ps.map Prod.fst).Nodup := by
      rw [List.map_cons] at hnd
      exact hnd.of_cons
    have hmem : p.1 ∉ ps.map Prod.fst := by
      rw [List.map_cons] at hnd
      exact (List.nodup_cons.mp hnd).1
    have hbound' : ∀ q ∈ ps, q.1 < (base.set p.1 p.2).length := by
      intro q hq
      rw [List.length_set]
      exact hbound q (List.mem_cons_of_mem _ hq)
    have hstep : scatterPairs (p :: ps) base = scatterPairs ps (base.set p.1 p.2) := rfl
    rw [hstep, ih _ hnd' hbound' i]
    by_cases hpi : p.1 = i
    · subst hpi
      have hfind : ps.find? (fun q => decide (q.1 = p.1)) = none := by
        rw [List.find?_eq_none]
        intro q hq
        simp only [decide_eq_true_eq]
        intro hqi
        have hq1 : q.1 ∈ ps.map Prod.fst := List.mem_map_of_mem Prod.fst hq
        rw [hqi] at hq1
        exact hmem hq1
      rw [hfind, List.find?_cons_of_pos _ (by simp)]
      exact List.getElem?_set_self (hbound p (List.mem_cons_self p ps))
    · rw [List.find?_cons_of_neg _ (by simp [hpi])]
      rcases hf : ps.find? (fun q => decide (q.1 = i)) with _ | q
      · rw [hf]
        exact List.getElem?_set_ne hpi
      · rw [hf]

theorem find?_idx_eq_none_iff {α : Type} (ret : List (ℕ × α)) (i : ℕ) :
    ret.find? (fun p => decide (p.1 = i)) = none ↔ i ∉ ret.map Prod.fst := by
  rw [List.find?_eq_none]
  constructor
  · intro h hc
    obtain ⟨p, hp, hpi⟩ := List.mem_map.mp hc
    exact h p hp (by simp [hpi])
  · intro h p hp
    simp only [decide_eq_true_eq]
    intro hpi
    exact h (List.mem_map.mpr ⟨p, hp, hpi⟩)

theorem countP_range_mem :
    ∀ (n : ℕ) (rl : List ℕ), rl.Nodup → (∀ x ∈ rl, x < n) →
      (List.range n).countP (fun i => decide (i ∈ rl)) = rl.length := by
  intro n
  induction n with
  | zero =>
    intro rl _ hb
    cases rl with
    | nil => simp
    | cons a as => exact absurd (hb a (List.mem_cons_self a as)) (by omega)
  | succ n ih =>
    intro rl hnd hb
    rw [List.range_succ, List.countP_append]
    by_cases hn : n ∈ rl
    · have h1 : (List.range n).countP (fun i => decide (i ∈ rl))
          = (List.range n).countP (fun i => decide (i ∈ rl.erase n)) := by
        apply List.countP_congr
        intro x hx
        have hxn : x ≠ n := by
          have := List.mem_range.mp hx
          omega
        simp only [decide_eq_true_eq]
        rw [hnd.mem_erase_iff]
        exact ⟨fun h => ⟨hxn, h⟩, fun h => h.2⟩
      have hbe : ∀ x ∈ rl.erase n, x < n := by
        intro x hx
        rw [hnd.mem_erase_iff] at hx
        have := hb x hx.2
        rcases hx with ⟨hxn, _⟩
        omega
      rw [h1, ih (rl.erase n) (hnd.erase n) hbe]
      have hlen : (rl.erase n).length = rl.length - 1 := List.length_erase_of_mem hn
      have hpos : 0 < rl.length := List.length_pos_of_mem hn
      have hone : ([n] : List ℕ).countP (fun i => decide (i ∈ rl)) = 1 := by
        simp [hn]
      rw [hone, hlen]
      omega
    · have h1 : ∀ x ∈ rl, x < n := by
        intro x hx
        have h2 := hb x hx
        have h3 : x ≠ n := fun hc => hn (hc ▸ hx)
        omega
      rw [ih rl hnd h1]
      simp [hn]

/-- C3 (amended): for `0 < k ≤ len(probs)` and every probability vector with
all entries positive (as softmax outputs are), `top_k_filtering` yields
exactly `k` nonzero entries, and the relative order of the retained entries
by probability is unchanged from the input. -/
theorem top_k_exact_spec {α : Type} [LinearOrderedField α] (probs : List α) (k : ℕ)
    (hk0 : 0 < k) (hk : k ≤ probs.length) (hpos : ∀ p ∈ probs, 0 < p) :
    (top_k_filtering probs k).countP (fun x => decide (x ≠ 0)) = k ∧
    (∀ i j : ℕ, i < probs.length → j < probs.length →
      (top_k_filtering probs k).getD i 0 ≠ 0 → (top_k_filtering probs k).getD j 0 ≠ 0 →
      (probs.getD i 0 < probs.getD j 0 ↔
        (top_k_filtering probs k).getD i 0 < (top_k_filtering probs k).getD j 0)) := by
  obtain ⟨n, hn⟩ : ∃ n, n = probs.length := ⟨_, rfl⟩
  obtain ⟨sorted, hsorted⟩ : ∃ l, l = sortByDesc Prod.snd (enumerate 0 probs) := ⟨_, rfl⟩
  obtain ⟨ret, hret⟩ : ∃ l, l = sorted.take k := ⟨_, rfl⟩
  obtain ⟨S, hS⟩ : ∃ s, s = (ret.map Prod.snd).sum := ⟨_, rfl⟩
  have hsortlen : sorted.length = n := by
    rw [hsorted, sortByDesc_length, enumerate_length, hn]
  have hretmem : ∀ p ∈ ret, p ∈ enumerate 0 probs := by
    intro p hp
    rw [hret] at hp
    rw [hsorted] at hp
    exact (sortByDesc_perm Prod.snd (enumerate 0 probs)).subset (List.mem_of_mem_take hp)
  have hidx : ∀ p ∈ ret, p.1 < n ∧ probs[p.1]? = some p.2 := by
    intro p hp
    have h := mem_enumerate (hretmem p hp)
    refine ⟨by rw [hn]; simpa using h.2.1, ?_⟩
    have h3 := h.2.2
    simpa [List.get?_eq_getElem?] using h3
  have hval : ∀ p ∈ ret, 0 < p.2 := by
    intro p hp
    have hmm := hretmem p hp
    have h2 : p.2 ∈ probs := by
      have h3 := List.mem_map_of_mem Prod.snd hmm
      rwa [enumerate_map_snd] at h3
    exact hpos _ h2
  have hretlen : ret.length = k := by
    rw [hret, List.length_take, hsortlen]
    omega
  have hSpos : 0 < S := by
    rw [hS]
    apply List.sum_pos
    · intro x hx
      obtain ⟨p, hp, rfl⟩ := List.mem_map.mp hx
      exact hval p hp
    · intro hc
      rw [List.map_eq_nil_iff] at hc
      rw [hc] at hretlen
      simp at hretlen
      omega
  have hnodup : (ret.map Prod.fst).Nodup := by
    have h1 : (sorted.map Prod.fst).Nodup := by
      have hperm := (by rw [hsorted]; exact sortByDesc_perm Prod.snd (enumerate 0 probs) :
        List.Perm sorted (enumerate 0 probs)).map Prod.fst
      exact hperm.nodup_iff.mpr (enumerate_nodup_fst probs 0)
    have h2 : (ret.map Prod.fst).Sublist (sorted.map Prod.fst) := by
      rw [hret]
      exact (List.take_sublist k sorted).map Prod.fst
    exact h1.sublist h2
  have hboundn : ∀ p ∈ ret, p.1 < n := fun p hp => (hidx p hp).1
  have htop : top_k_filtering probs k
      = (scatterPairs ret (List.replicate n 0)).map (fun v => v / S) := by
    simp only [top_k_filtering]
    rw [← hsorted, ← hn, ← hret, ← hS, if_pos hSpos]
  have hchar : ∀ i, i < n → (top_k_filtering probs k)[i]?
      = some (match ret.find? (fun p => decide (p.1 = i)) with
              | some q => q.2 / S
              | none => 0) := by
    intro i hi
    rw [htop, List.getElem?_map,
        scatterPairs_getElem? ret _ hnodup (by simpa using hboundn) i]
    rcases hf : ret.find? (fun p => decide (p.1 = i)) with _ | q
    · rw [hf, List.getElem?_replicate, if_pos hi]
      simp
    · rw [hf]
      simp
  have hform : top_k_filtering probs k = (List.range n).map (fun i =>
      match ret.find? (fun p => decide (p.1 = i)) with
      | some q => q.2 / S
      | none => 0) := by
    apply List.ext_getElem?
    intro i
    by_cases hi : i < n
    · rw [hchar i hi, List.getElem?_map, List.getElem?_range hi]
      rfl
    · have h1 : (top_k_filtering probs k).length = n := by
        rw [top_k_filtering_length, hn]
      rw [List.getElem?_eq_none (by omega), List.getElem?_eq_none (by simp; omega)]
  have hgetD : ∀ i, i < n → (top_k_filtering probs k).getD i 0
      = (match ret.find? (fun p => decide (p.1 = i)) with
         | some q => q.2 / S
         | none => 0) := by
    intro i hi
    rw [List.getD_eq_getElem?_getD, hchar i hi]
    rfl
  constructor
  · rw [hform, List.countP_map]
    have hcongr : (List.range n).countP ((fun x => decide (x ≠ 0)) ∘ (fun i =>
        match ret.find? (fun p => decide (p.1 = i)) with
        | some q => q.2 / S
        | none => 0))
        = (List.range n).countP (fun i => decide (i ∈ ret.map Prod.fst)) := by
      apply List.countP_congr
      intro i _
      simp only [Function.comp, decide_eq_true_eq]
      rcases hf : ret.find? (fun p => decide (p.1 = i)) with _ | q
      · rw [hf]
        simp [(find?_idx_eq_none_iff ret i).mp hf]
      · have hq : q ∈ ret := List.mem_of_find?_eq_some hf
        have hqi : q.1 = i := by simpa using List.find?_some hf
        have hqpos : 0 < q.2 / S := div_pos (hval q hq) hSpos
        rw [hf]
        constructor
        · intro _
          exact List.mem_map.mpr ⟨q, hq, hqi⟩
        · intro _
          exact ne_of_gt hqpos
    rw [hcongr, countP_range_mem n (ret.map Prod.fst) hnodup
      (by intro x hx; obtain ⟨p, hp, rfl⟩ := List.mem_map.mp hx; exact hboundn p hp)]
    rw [List.length_map, hretlen]
  · intro i j hi hj hnzi hnzj
    rw [← hn] at hi hj
    rcases hfi : ret.find? (fun p => decide (p.1 = i)) with _ | qi
    · rw [hgetD i hi, hfi] at hnzi
      exact absurd rfl hnzi
    rcases hfj : ret.find? (fun p => decide (p.1 = j)) with _ | qj
    · rw [hgetD j hj, hfj] at hnzj
      exact absurd rfl hnzj
    have hqi : qi ∈ ret := List.mem_of_find?_eq_some hfi
    have hqj : qj ∈ ret := List.mem_of_find?_eq_some hfj
    have hqi1 : qi.1 = i := by simpa using List.find?_some hfi
    have hqj1 : qj.1 = j := by simpa using List.find?_some hfj
    have hpi : probs.getD i 0 = qi.2 := by
      rw [List.getD_eq_getElem?_getD, ← hqi1, (hidx qi hqi).2]
      rfl
    have hpj : probs.getD j 0 = qj.2 := by
      rw [List.getD_eq_getElem?_getD, ← hqj1, (hidx qj hqj).2]
      rfl
    rw [hgetD i hi, hgetD j hj, hfi, hfj, hpi, hpj]
    exact (div_lt_div_iff_of_pos_right hSpos).symm

/-- C3 counterexample: `[1/2, 1/2, 0, 0]` is a probability vector (entries
nonnegative, summing to 1) and `k = 3` satisfies `0 < k ≤ len`, yet top-k
filtering plus renormalization yields only 2 nonzero entries, not 3. -/
theorem top_k_exact_counterexample :
    ([(1:ℚ)/2, 1/2, 0, 0]).sum = 1 ∧
    ([(1:ℚ)/2, 1/2, 0, 0]).all (fun x => decide (0 ≤ x)) = true ∧
    top_k_filtering [(1:ℚ)/2, 1/2, 0, 0] 3 = [1/2, 1/2, 0, 0] ∧
    (top_k_filtering [(1:ℚ)/2, 1/2, 0, 0] 3).countP (fun x => decide (x ≠ 0)) = 2 := by
  refine ⟨by norm_num, by norm_num, ?_, ?_⟩
  · norm_num [top_k_filtering, sortByDesc, enumerate, scatterPairs, List.insertionSort,
      List.orderedInsert, List.replicate, List.set]
  · norm_num [top_k_filtering, sortByDesc, enumerate, scatterPairs, List.insertionSort,
      List.orderedInsert, List.replicate, List.set, List.countP, List.countP.go]

/-- Witness for C3 (amended) on an all-positive probability vector. -/
theorem top_k_exact_witness :
    (top_k_filtering [(1:ℚ)/4, 1/4, 1/2] 2).countP (fun x => decide (x ≠ 0)) = 2 :=
  (top_k_exact_spec [(1:ℚ)/4, 1/4, 1/2] 2 (by norm_num) (by norm_num)
    (by
      intro p hp
      simp only [List.mem_cons, List.not_mem_nil, or_false] at hp
      rcases hp with rfl | rfl | rfl <;> norm_num)).1

theorem scoreChunks_ok_length (q : List ℝ) :
    ∀ (chunks : List Chunk) (res : List SearchResult),
      scoreChunks q chunks = .ok res →
      res.length = chunks.countP (fun c => c.embedding.isSome) := by
  intro chunks
  induction chunks with
  | nil =>
    intro res h
    simp only [scoreChunks] at h
    have : res = [] := by
      cases res with
      | nil => rfl
      | cons a as => simp at h
    subst this
    simp
  | cons c cs ih =>
    intro res h
    simp only [scoreChunks] at h
    rcases hemb : c.embedding with _ | e
    · rw [hemb] at h
      rw [ih res h, List.countP_cons]
      simp [hemb]
    · rw [hemb] at h
      dsimp only at h
      rcases hcos : cosine_similarity q e with score | m | m <;> rw [hcos] at h
      · rcases hrest : scoreChunks q cs with rest | m | m <;> rw [hrest] at h
        · have hres : res = { chunk := c, score := score } :: rest := by
            cases h
            rfl
          subst hres
          rw [List.length_cons, ih rest hrest, List.countP_cons]
          simp [hemb]
        · simp at h
        · simp at h
      · simp at h
      · simp at h

theorem scoreChunks_ok_mem (q : List ℝ) :
    ∀ (chunks : List Chunk) (res : List SearchResult),
      scoreChunks q chunks = .ok res →
      ∀ x ∈ res, ∃ c ∈ chunks, ∃ e, c.embedding = some e ∧
        x.chunk = c ∧ cosine_similarity q e = .ok x.score := by
  intro chunks
  induction chunks with
  | nil =>
    intro res h x hx
    simp only [scoreChunks] at h
    cases res with
    | nil => simp at hx
    | cons a as => simp at h
  | cons c cs ih =>
    intro res h x hx
    simp only [scoreChunks] at h
    rcases hemb : c.embedding with _ | e
    · rw [hemb] at h
      obtain ⟨c', hc', he⟩ := ih res h x hx
      exact ⟨c', List.mem_cons_of_mem _ hc', he⟩
    · rw [hemb] at h
      dsimp only at h
      rcases hcos : cosine_similarity q e with score | m | m <;> rw [hcos] at h
      · rcases hrest : scoreChunks q cs with rest | m | m <;> rw [hrest] at h
        · have hres : res = { chunk := c, score := score } :: rest := by
            cases h
            rfl
          subst hres
          rcases List.mem_cons.mp hx with rfl | hx'
          · exact ⟨c, List.mem_cons_self c cs, e, hemb, rfl, hcos⟩
          · obtain ⟨c', hc', he⟩ := ih rest hrest x hx'
            exact ⟨c', List.mem_cons_of_mem _ hc', he⟩
        · simp at h
        · simp at h
      · simp at h
      · simp at h

/-- C5: when scoring succeeds, `search` scores exactly the candidates that
have an embedding (the rest are skipped, not scored as zero), sorts them
descending by score with ties in original insertion order (stable sort), and
truncates to at most `k` results; `k = 0` gives the empty list and `k` at
least the scored count returns all scored candidates. -/
theorem search_spec (db : VectorDatabase) (q : List ℝ) (k : ℕ)
    (res : List SearchResult) (h : scoreChunks q db.chunks = .ok res) :
    ∃ out, db.search q k = .ok out ∧
      out.length = min k res.length ∧
      (k = 0 → out = []) ∧
      (res.length ≤ k → List.Perm out res) ∧
      out.Sorted (fun a b => b.score ≤ a.score) ∧
      (∀ s : ℝ, (sortByDesc SearchResult.score res).filter (fun x => x.score = s)
        = res.filter (fun x => x.score = s)) ∧
      res.length = db.chunks.countP (fun c => c.embedding.isSome) ∧
      (∀ x ∈ res, ∃ c ∈ db.chunks, ∃ e, c.embedding = some e ∧
        x.chunk = c ∧ cosine_similarity q e = .ok x.score) := by
  refine ⟨(sortByDesc SearchResult.score res).take k, ?_, ?_, ?_, ?_, ?_, ?_, ?_, ?_⟩
  · simp only [VectorDatabase.search, h]
  · rw [List.length_take, sortByDesc_length]
  · intro hk
    rw [hk]
    exact List.take_zero _
  · intro hle
    rw [List.take_of_length_le (by rw [sortByDesc_length]; exact hle)]
    exact sortByDesc_perm _ _
  · exact (sortByDesc_sorted SearchResult.score res).sublist (List.take_sublist _ _)
  · intro s
    exact sortByDesc_stable SearchResult.score res s
  · exact scoreChunks_ok_length q db.chunks res h
  · exact scoreChunks_ok_mem q db.chunks res h

/-- Witness for C5: a two-chunk database (one embedded, one without an
embedding); `k = 0` returns the empty sequence. -/
theorem search_spec_witness :
    ∃ out,
      (VectorDatabase.mk
        [Chunk.mk "1" "Hello world" (some [(1:ℝ), 0])
          (ChunkMetadata.mk "doc1" "Doc 1" 0 0 11 "2025-01-01"),
         Chunk.mk "2" "Goodbye world" none
          (ChunkMetadata.mk "doc1" "Doc 1" 1 12 25 "2025-01-01")]).search [(1:ℝ), 0] 0
        = .ok out ∧ out = [] := by
  have hcos : cosine_similarity [(1:ℝ), 0] [(1:ℝ), 0] = .ok 1 := by
    simp only [cosine_similarity, magnitude]
    norm_num [Real.sqrt_one]
  have hsc : scoreChunks [(1:ℝ), 0]
      [Chunk.mk "1" "Hello world" (some [(1:ℝ), 0])
        (ChunkMetadata.mk "doc1" "Doc 1" 0 0 11 "2025-01-01"),
       Chunk.mk "2" "Goodbye world" none
        (ChunkMetadata.mk "doc1" "Doc 1" 1 12 25 "2025-01-01")]
      = .ok [SearchResult.mk (Chunk.mk "1" "Hello world" (some [(1:ℝ), 0])
          (ChunkMetadata.mk "doc1" "Doc 1" 0 0 11 "2025-01-01")) 1] := by
    simp [scoreChunks, hcos]
  obtain ⟨out, hout, hprops⟩ := search_spec _ [(1:ℝ), 0] 0 _ hsc
  exact ⟨out, hout, hprops.2.1 rfl⟩
